import Mathlib

/-!
Verification of the `@mxweb/react-hooks` composition utilities.

The development shallowly embeds the two algorithmic cores of the package:

* the sequential event-handler combinator `combineEvents` (and its memoized
  wrapper `useCombineEvents`) from `src/use-combine-callback.ts`, together
  with the memoized wrapper `useCombineRefs` from `src/use-combine-refs.ts`;
* the viewport-condition evaluator `safeMatch` / `matching` / `isEqual`
  from the `useMediaQuery` module.

JavaScript references are modelled by allocation identifiers (`Nat`);
reference identity is identifier equality.  Event objects are modelled by
the state the combinator can observe and handlers can mutate; machine
effects (`setTimeout` scheduling, promise adoption) are collapsed into the
sequential run-to-completion semantics they implement, with the trace of
invoked handlers and the terminal outcome kept observable.
-/

namespace MxHooks

/-! ## Event-chain combinator: data model

An argument-list entry of `combineEvents(...callbacks)` is either a function
reference (identified by an allocation id), the JavaScript `null`, or the
JavaScript `undefined`.  `new Set(callbacks)` deduplicates by SameValueZero,
under which `null`, `undefined`, and each function reference are pairwise
distinct values. -/
inductive Entry : Type
  | func (id : Nat)
  | jsNull
  | jsUndefined
deriving DecidableEq, Repr

/-- The state of the event-like first call argument that the combinator
inspects and handlers may mutate.  `ownDefaultPrevented = some v` means the
object carries an own property named `defaultPrevented` whose truthiness is
`v`; `none` means no own property of that name.  `protoDefaultPrevented` is
the truthiness a plain property read would see through the prototype chain
when no own property is present. -/
structure EventState : Type where
  ownDefaultPrevented : Option Bool
  protoDefaultPrevented : Bool
deriving DecidableEq, Repr

/-- `Object.prototype.hasOwnProperty.call(event, "defaultPrevented")`. -/
def hasOwnDP (s : EventState) : Bool :=
  s.ownDefaultPrevented.isSome

/-- The property read `event.defaultPrevented`: the own value when present,
otherwise the value inherited through the prototype chain. -/
def readDP (s : EventState) : Bool :=
  s.ownDefaultPrevented.getD s.protoDefaultPrevented

/-- The cancellation inspection of `combineEvents`:
`hasOwnProperty.call(event, "defaultPrevented") && event.defaultPrevented`. -/
def cancelSignal (s : EventState) : Bool :=
  hasOwnDP s && readDP s

/-- The result of invoking one handler: normal completion, or an error
(synchronous throw, or rejection of the returned pending value — the two are
indistinguishable to the combinator, which wraps the call in
`new Promise(...)`).  Errors are identified by a code. -/
inductive HRes : Type
  | ok
  | err (code : Nat)
deriving DecidableEq, Repr

/-- A handler environment: the behaviour of the function reference with a
given id, as a transformation of the event state plus a completion result. -/
def HandlerEnv : Type := Nat → EventState → EventState × HRes

/-- Terminal state of one invocation of the combined handler, following the
state machine `Pending → Running → \x7bCancelled | Completed | Failed\x7d`, with
one extra terminal for the `TypeError` that
`Object.prototype.hasOwnProperty.call` raises on a `null`/`undefined` first
argument. -/
inductive ChainOutcome : Type
  | completed
  | cancelled
  | failed (code : Nat)
  | inspectError
deriving DecidableEq, Repr

/-- First-occurrence-order deduplication, with an accumulator of entries
already seen: the iteration order of `new Set(callbacks)`. -/
def firstDedupAux {α : Type} [DecidableEq α] : List α → List α → List α
  | [], _ => []
  | x :: xs, seen =>
    if x ∈ seen then firstDedupAux xs seen
    else x :: firstDedupAux xs (x :: seen)

/-- The element sequence of `new Set(callbacks)`: each value kept at its
first occurrence, later duplicates dropped. -/
def firstDedup {α : Type} [DecidableEq α] (l : List α) : List α :=
  firstDedupAux l []

/-- The function-reference ids of a queue, in order (absent entries
dropped). -/
def funcIds : List Entry → List Nat
  | [] => []
  | .func i :: rest => i :: funcIds rest
  | .jsNull :: rest => funcIds rest
  | .jsUndefined :: rest => funcIds rest

/-- The `execute` loop of `combineEvents`, run to completion over the
deduplicated queue.  `argNullish` records whether the first call argument is
`null`/`undefined` (including the no-argument invocation), in which case the
cancellation inspection itself throws a `TypeError`.  A falsy entry skips
the `if (callback)` body and merely reschedules; a truthy entry is guarded
by the inspection, then invoked, its completion awaited, and on success the
loop continues with the next entry.  A rejection leaves the internal promise
with no continuation, so no further entry runs.  Returns the trace of
invoked handler ids, the final event state, and the terminal outcome. -/
def execLoop (env : HandlerEnv) (argNullish : Bool) :
    List Entry → EventState → List Nat × EventState × ChainOutcome
  | [], s => ([], s, .completed)
  | .jsNull :: rest, s => execLoop env argNullish rest s
  | .jsUndefined :: rest, s => execLoop env argNullish rest s
  | .func i :: rest, s =>
    if argNullish then ([], s, .inspectError)
    else if cancelSignal s then ([], s, .cancelled)
    else
      match env i s with
      | (s', .ok) =>
        let r := execLoop env argNullish rest s'
        (i :: r.1, r.2.1, r.2.2)
      | (s', .err c) => ([i], s', .failed c)

/-- The value `combinedCallback` delivers synchronously to its caller.  The
source either falls off the end of the function (returning `undefined`) or
propagates the inspection's `TypeError` when the first queue entry is a
function and the first argument is nullish.  `promiseSettling o` is the
shape a returned promise completing like the chain would have; it is stated
so that the specification's claimed completion behaviour can be compared
against the source, which never constructs it. -/
inductive SyncRet : Type
  | undefinedVal
  | typeError
  | promiseSettling (o : ChainOutcome)
deriving DecidableEq, Repr

/-- Everything observable about one invocation of the handler returned by
`combineEvents`. -/
structure RunResult : Type where
  syncRet : SyncRet
  trace : List Nat
  finalState : EventState
  outcome : ChainOutcome
deriving DecidableEq, Repr

/-- The synchronous return of `combinedCallback`: the first `execute()` call
runs on the caller's stack, so if the head of the deduplicated queue is a
function and the first argument is nullish, the inspection's `TypeError`
escapes synchronously; in every other case the function returns
`undefined` (later steps run inside `setTimeout` tasks). -/
def syncRetOf (queue : List Entry) (argNullish : Bool) : SyncRet :=
  match queue with
  | .func _ :: _ => if argNullish then .typeError else .undefinedVal
  | _ => .undefinedVal

/-- One invocation of the handler returned by
`combineEvents(...entries)` on a first argument in state `s0`
(`argNullish` true when the first argument is `null`/`undefined` or
absent): build the deduplicated working queue, then run the `execute`
loop. -/
def combineEvents (env : HandlerEnv) (argNullish : Bool)
    (entries : List Entry) (s0 : EventState) : RunResult :=
  let q := firstDedup entries
  let r := execLoop env argNullish q s0
  { syncRet := syncRetOf q argNullish
    trace := r.1
    finalState := r.2.1
    outcome := r.2.2 }


/-- Handlers that do nothing and succeed. -/
def envOk : HandlerEnv := fun _ s => (s, .ok)

/-- Handler 0 fails with error code 7; every other handler succeeds. -/
def envErr7 : HandlerEnv := fun i s =>
  if i = 0 then (s, .err 7) else (s, .ok)

/-- Handler 0 synchronously sets `defaultPrevented` (as an own property);
every handler succeeds. -/
def envPrevent : HandlerEnv := fun i s =>
  if i = 0 then ({ s with ownDefaultPrevented := some true }, .ok) else (s, .ok)

/-- An event object with no own `defaultPrevented` and a falsy prototype
read: a plain `\x7b\x7d`. -/
def plainEvent : EventState := ⟨none, false⟩

/-! ## Viewport-condition evaluator: data model

The `useMediaQuery` module's pure core, from the source of `safeMatch`,
`matching` and `isEqual`.  The ambient display environment is a capability
record: whether `window` exists, whether `window` carries an own
`matchMedia` property, and what `window.matchMedia(q).matches` delivers —
either a boolean or a thrown exception (identified by a code). -/
structure DisplayEnv : Type where
  hasWindow : Bool
  hasMatchMedia : Bool
  matchMedia : String → Except Nat Bool

/-- `safeMatch(query)`: inside a try/catch, return `false` when `window` is
undefined (`isServer()`) or `window` has no own `matchMedia` property;
otherwise return `window.matchMedia(query).matches`, with any thrown
exception caught and turned into `false`.  The function is total — by the
`catch` no exception crosses its boundary. -/
def safeMatch (env : DisplayEnv) (query : String) : Bool :=
  if !env.hasWindow || !env.hasMatchMedia then false
  else
    match env.matchMedia query with
    | .ok b => b
    | .error _ => false

/-- A media-query input: a single condition string, or a named mapping of
condition strings.  A JavaScript object is modelled as its entry list in
insertion order; objects never hold a duplicate key, recorded where needed
as a `Nodup` hypothesis on the key list. -/
inductive MediaQueryInput : Type
  | single (q : String)
  | named (m : List (String × String))

/-- An evaluation result, mirroring the input's shape. -/
inductive MatchRes : Type
  | single (b : Bool)
  | named (m : List (String × Bool))
deriving DecidableEq, Repr

/-- `matching(query)`: a string is passed to `safeMatch` directly; an
object is folded over `Object.keys(query)` (insertion order), assigning
`rs[key] = safeMatch(query[key])` for every key — with unique keys, the
entry list `m.map (fun kv => (kv.1, safeMatch env kv.2))`. -/
def matching (env : DisplayEnv) : MediaQueryInput → MatchRes
  | .single q => .single (safeMatch env q)
  | .named m => .named (m.map (fun kv => (kv.1, safeMatch env kv.2)))

/-- The key list of a result object, in insertion order
(`Object.keys`). -/
def keys (m : List (String × Bool)) : List String :=
  m.map Prod.fst

/-- `isEqual` on two object-shaped results: `false` when the key counts
differ, `true` when both are empty, else
`aKeys.every(key => a[key] === b[key])` — where `b[key]` is `undefined`
when `b` lacks the key, and a boolean is never strictly equal to
`undefined`. -/
def isEqualNamed (a b : List (String × Bool)) : Bool :=
  if a.length ≠ b.length then false
  else if a.length = 0 then true
  else a.all (fun kv => b.lookup kv.1 == some kv.2)

/-- `isEqual(a, b)`: entrywise comparison for two object-shaped results;
otherwise the strict equality `a === b`, which is `false` across shapes and
boolean equality within the single shape. -/
def isEqual : MatchRes → MatchRes → Bool
  | .named a, .named b => isEqualNamed a b
  | .single x, .single y => x == y
  | _, _ => false

/-- A well-formed evaluation result: object-shaped results come from
JavaScript objects, whose keys are unique. -/
def WFRes : MatchRes → Prop
  | .single _ => True
  | .named m => (keys m).Nodup


/-- Headless environment: no query capability at all. -/
def envHeadless : DisplayEnv :=
  ⟨false, false, fun _ => .ok true⟩

/-- An interactive environment matching exactly the condition `"wide"`,
and throwing on the condition `"boom"`. -/
def envWide : DisplayEnv :=
  ⟨true, true, fun q => if q = "wide" then .ok true
    else if q = "boom" then .error 0 else .ok false⟩

/-! ## Memoized wrappers: `useMemo` keyed on the rest-parameter array

`useCombineEvents` and `useCombineRefs` both return
`useMemo(() => combine...(...list), [list])`, where `list` is the rest
parameter — a freshly constructed array on every call.  The framework
compares the previous and next dependency lists element-wise with
`Object.is`; values are modelled by allocation identifiers, on which
`Object.is` is identifier equality, and a fresh construction yields an
identifier different from every previously existing one. -/

/-- The framework's dependency comparison: element-wise `Object.is` over
the two dependency lists. -/
def areHookInputsEqual (prev next : List Nat) : Bool :=
  prev.length == next.length &&
    (List.zip prev next).all (fun p => p.1 == p.2)

/-- The memo slot retained between two renders: the dependency list and the
identity of the cached value. -/
structure MemoCell : Type where
  deps : List Nat
  valueId : Nat
deriving DecidableEq, Repr

/-- One render's `useMemo(factory, deps)`: reuse the cached value when the
dependency lists compare equal, otherwise run the factory, producing a
freshly allocated value `freshId`. -/
def useMemoRender (cell : Option MemoCell) (newDeps : List Nat)
    (freshId : Nat) : MemoCell :=
  match cell with
  | some c => if areHookInputsEqual c.deps newDeps then c else ⟨newDeps, freshId⟩
  | none => ⟨newDeps, freshId⟩

/-- One render of `useCombineEvents(...callbacks)`: the dependency list
passed to `useMemo` is `[callbacks]` — the one-element list holding the
rest-parameter array itself (identified by `callbacksArrId`), not the
array's elements. -/
def useCombineEvents (cell : Option MemoCell) (callbacksArrId : Nat)
    (freshHandlerId : Nat) : MemoCell :=
  useMemoRender cell [callbacksArrId] freshHandlerId

/-- One render of `useCombineRefs(...refs)`: the dependency list passed to
`useMemo` is `[refs]`, the one-element list holding the rest-parameter
array itself. -/
def useCombineRefs (cell : Option MemoCell) (refsArrId : Nat)
    (freshHandlerId : Nat) : MemoCell :=
  useMemoRender cell [refsArrId] freshHandlerId


/-! Sanity checks of the embedding on concrete runs. -/

example :
    combineEvents envOk false [.func 0, .func 0, .func 1] plainEvent =
      ⟨.undefinedVal, [0, 1], plainEvent, .completed⟩ := by decide

example :
    combineEvents envErr7 false [.func 0, .func 1] plainEvent =
      ⟨.undefinedVal, [0], plainEvent, .failed 7⟩ := by decide

example :
    combineEvents envPrevent false [.func 0, .func 1] plainEvent =
      ⟨.undefinedVal, [0], ⟨some true, false⟩, .cancelled⟩ := by decide

example :
    combineEvents envOk true [.func 0, .func 1] plainEvent =
      ⟨.typeError, [], plainEvent, .inspectError⟩ := by decide

example :
    combineEvents envOk true [.jsNull, .jsUndefined] plainEvent =
      ⟨.undefinedVal, [], plainEvent, .completed⟩ := by decide

example :
    combineEvents envOk false [.func 2, .jsNull, .func 1]
        ⟨none, true⟩ =
      ⟨.undefinedVal, [2, 1], ⟨none, true⟩, .completed⟩ := by decide

/-! Sanity checks from the specification scenarios. -/

example : safeMatch envHeadless "(min-width: 768px)" = false := by decide

example :
    matching envWide (.named [("mobile", "narrow"), ("desktop", "wide")]) =
      .named [("mobile", false), ("desktop", true)] := by decide

example :
    isEqual (.named [("a", true), ("b", false)])
      (.named [("b", false), ("a", true)]) = true := by decide

example :
    isEqual (.named [("a", true)]) (.named [("a", true), ("b", false)]) = false := by
  decide

/-! ## Structural lemmas about the deduplicated queue -/

theorem mem_firstDedupAux {α : Type} [DecidableEq α] (l : List α) :
    ∀ (seen : List α) (a : α),
      a ∈ firstDedupAux l seen ↔ a ∈ l ∧ a ∉ seen := by
  induction l with
  | nil => intro seen a; simp [firstDedupAux]
  | cons x xs ih =>
    intro seen a
    by_cases hx : x ∈ seen
    · simp only [firstDedupAux, if_pos hx, ih, List.mem_cons]
      constructor
      · rintro ⟨ha, hs⟩
        exact ⟨Or.inr ha, hs⟩
      · rintro ⟨rfl | ha, hs⟩
        · exact absurd hx hs
        · exact ⟨ha, hs⟩
    · simp only [firstDedupAux, if_neg hx, List.mem_cons, ih]
      constructor
      · rintro (rfl | ⟨ha, hs⟩)
        · exact ⟨Or.inl rfl, hx⟩
        · exact ⟨Or.inr ha, fun hc => hs (Or.inr hc)⟩
      · rintro ⟨rfl | ha, hs⟩
        · exact Or.inl rfl
        · by_cases hax : a = x
          · exact Or.inl hax
          · exact Or.inr ⟨ha, fun hc => hc.elim hax hs⟩

theorem mem_firstDedup {α : Type} [DecidableEq α] (l : List α) (a : α) :
    a ∈ firstDedup l ↔ a ∈ l := by
  simp [firstDedup, mem_firstDedupAux]

theorem firstDedupAux_sublist {α : Type} [DecidableEq α] (l : List α) :
    ∀ seen : List α, (firstDedupAux l seen).Sublist l := by
  induction l with
  | nil => intro seen; simp [firstDedupAux]
  | cons x xs ih =>
    intro seen
    by_cases hx : x ∈ seen
    · simpa [firstDedupAux, if_pos hx] using (ih seen).cons x
    · simpa [firstDedupAux, if_neg hx] using (ih (x :: seen)).cons₂ x

theorem firstDedup_sublist {α : Type} [DecidableEq α] (l : List α) :
    (firstDedup l).Sublist l :=
  firstDedupAux_sublist l []

theorem nodup_firstDedupAux {α : Type} [DecidableEq α] (l : List α) :
    ∀ seen : List α, (firstDedupAux l seen).Nodup := by
  induction l with
  | nil => intro seen; simp [firstDedupAux]
  | cons x xs ih =>
    intro seen
    by_cases hx : x ∈ seen
    · simpa [firstDedupAux, if_pos hx] using ih seen
    · simp only [firstDedupAux, if_neg hx]
      refine List.nodup_cons.mpr ⟨fun hc => ?_, ih (x :: seen)⟩
      exact ((mem_firstDedupAux xs (x :: seen) x).mp hc).2 (List.mem_cons_self x seen)

theorem nodup_firstDedup {α : Type} [DecidableEq α] (l : List α) :
    (firstDedup l).Nodup :=
  nodup_firstDedupAux l []

theorem mem_funcIds (i : Nat) : ∀ l : List Entry, i ∈ funcIds l ↔ Entry.func i ∈ l := by
  intro l
  induction l with
  | nil => simp [funcIds]
  | cons x xs ih =>
    cases x with
    | func j => simp [funcIds, ih]
    | jsNull => simp [funcIds, ih]
    | jsUndefined => simp [funcIds, ih]

theorem funcIds_firstDedupAux (l : List Entry) :
    ∀ seen : List Entry,
      funcIds (firstDedupAux l seen) = firstDedupAux (funcIds l) (funcIds seen) := by
  induction l with
  | nil => intro seen; simp [firstDedupAux, funcIds]
  | cons x xs ih =>
    intro seen
    cases x with
    | func j =>
      by_cases hx : Entry.func j ∈ seen
      · have hj : j ∈ funcIds seen := (mem_funcIds j seen).mpr hx
        simp [firstDedupAux, funcIds, hx, hj, ih]
      · have hj : j ∉ funcIds seen := fun hc => hx ((mem_funcIds j seen).mp hc)
        simpa [firstDedupAux, funcIds, hx, hj] using ih (Entry.func j :: seen)
    | jsNull =>
      by_cases hx : Entry.jsNull ∈ seen
      · simp [firstDedupAux, funcIds, hx, ih]
      · simpa [firstDedupAux, funcIds, hx] using ih (Entry.jsNull :: seen)
    | jsUndefined =>
      by_cases hx : Entry.jsUndefined ∈ seen
      · simp [firstDedupAux, funcIds, hx, ih]
      · simpa [firstDedupAux, funcIds, hx] using ih (Entry.jsUndefined :: seen)

/-- Dropping absent entries commutes with the set-order deduplication. -/
theorem funcIds_firstDedup (l : List Entry) :
    funcIds (firstDedup l) = firstDedup (funcIds l) := by
  simpa [firstDedup, funcIds] using funcIds_firstDedupAux l []

theorem funcIds_sublist_of_sublist {l₁ l₂ : List Entry} (h : l₁.Sublist l₂) :
    (funcIds l₁).Sublist (funcIds l₂) := by
  induction h with
  | slnil => simp [funcIds]
  | cons x _ ih =>
    cases x with
    | func j => exact ih.trans (List.sublist_cons_self j _)
    | jsNull => simpa [funcIds] using ih
    | jsUndefined => simpa [funcIds] using ih
  | cons₂ x _ ih =>
    cases x with
    | func j => simpa [funcIds] using ih.cons₂ j
    | jsNull => simpa [funcIds] using ih
    | jsUndefined => simpa [funcIds] using ih

theorem funcIds_firstDedup_sublist (l : List Entry) :
    (funcIds (firstDedup l)).Sublist (funcIds l) :=
  funcIds_sublist_of_sublist (firstDedup_sublist l)

/-! ## Unfolding equations for the execute loop -/

theorem execLoop_nil (env : HandlerEnv) (argN : Bool) (s : EventState) :
    execLoop env argN [] s = ([], s, ChainOutcome.completed) := rfl

theorem execLoop_jsNull (env : HandlerEnv) (argN : Bool) (rest : List Entry)
    (s : EventState) :
    execLoop env argN (Entry.jsNull :: rest) s = execLoop env argN rest s := rfl

theorem execLoop_jsUndef (env : HandlerEnv) (argN : Bool) (rest : List Entry)
    (s : EventState) :
    execLoop env argN (Entry.jsUndefined :: rest) s = execLoop env argN rest s := rfl

theorem execLoop_func_nullish (env : HandlerEnv) (i : Nat) (rest : List Entry)
    (s : EventState) :
    execLoop env true (Entry.func i :: rest) s = ([], s, ChainOutcome.inspectError) := by
  simp [execLoop]

theorem execLoop_func_cancel (env : HandlerEnv) (i : Nat) (rest : List Entry)
    (s : EventState) (hc : cancelSignal s = true) :
    execLoop env false (Entry.func i :: rest) s = ([], s, ChainOutcome.cancelled) := by
  simp [execLoop, hc]

theorem execLoop_func_ok (env : HandlerEnv) (i : Nat) (rest : List Entry)
    (s s' : EventState) (hc : cancelSignal s = false)
    (henv : env i s = (s', HRes.ok)) :
    execLoop env false (Entry.func i :: rest) s =
      (i :: (execLoop env false rest s').1,
        (execLoop env false rest s').2.1, (execLoop env false rest s').2.2) := by
  simp [execLoop, hc, henv]

theorem execLoop_func_err (env : HandlerEnv) (i : Nat) (rest : List Entry)
    (s s' : EventState) (c : Nat) (hc : cancelSignal s = false)
    (henv : env i s = (s', HRes.err c)) :
    execLoop env false (Entry.func i :: rest) s = ([i], s', ChainOutcome.failed c) := by
  simp [execLoop, hc, henv]

/-! ## Structural lemmas about the execute loop -/

/-- A queue of only absent entries is drained without invoking anything,
inspecting anything, or raising anything. -/
theorem execLoop_skip_all (env : HandlerEnv) (argN : Bool) :
    ∀ (q : List Entry) (s : EventState),
      (∀ e ∈ q, e = Entry.jsNull ∨ e = Entry.jsUndefined) →
      execLoop env argN q s = ([], s, ChainOutcome.completed) := by
  intro q
  induction q with
  | nil => intro s _; rfl
  | cons x xs ih =>
    intro s h
    rcases h x (List.mem_cons_self x xs) with rfl | rfl
    · simpa [execLoop] using ih s (fun e he => h e (List.mem_cons_of_mem _ he))
    · simpa [execLoop] using ih s (fun e he => h e (List.mem_cons_of_mem _ he))

/-- Invariant lemma: if `P` rules out the cancellation signal, is preserved
by every handler, and every handler completes normally, then the loop
invokes exactly the function entries of the queue, in order, and
completes. -/
theorem execLoop_all_run (env : HandlerEnv) (P : EventState → Prop)
    (hP : ∀ s, P s → cancelSignal s = false)
    (hpres : ∀ i s, P s → P (env i s).1)
    (hok : ∀ i s, (env i s).2 = HRes.ok) :
    ∀ (q : List Entry) (s : EventState), P s →
      (execLoop env false q s).1 = funcIds q ∧
      (execLoop env false q s).2.2 = ChainOutcome.completed ∧
      P (execLoop env false q s).2.1 := by
  intro q
  induction q with
  | nil => intro s hs; exact ⟨rfl, rfl, hs⟩
  | cons x xs ih =>
    intro s hs
    cases x with
    | jsNull => simpa [execLoop, funcIds] using ih s hs
    | jsUndefined => simpa [execLoop, funcIds] using ih s hs
    | func i =>
      have hc : cancelSignal s = false := hP s hs
      rcases henv : env i s with ⟨s', r⟩
      have hr : r = HRes.ok := by
        have := hok i s
        rw [henv] at this
        exact this
      subst hr
      have hs' : P s' := by
        have := hpres i s hs
        rw [henv] at this
        exact this
      have hrest := ih s' hs'
      rw [execLoop_func_ok env i xs s s' hc henv]
      exact ⟨by simp [funcIds, hrest.1], hrest.2.1, hrest.2.2⟩

/-- The trace of invoked handlers is always an initial segment of the
function entries of the queue: nothing runs out of order, and nothing after
a stop, a failure, or an inspection error runs at all. -/
theorem execLoop_trace_initial (env : HandlerEnv) (argN : Bool) :
    ∀ (q : List Entry) (s : EventState),
      ∃ t, (execLoop env argN q s).1 ++ t = funcIds q := by
  intro q
  induction q with
  | nil => intro s; exact ⟨[], rfl⟩
  | cons x xs ih =>
    intro s
    cases x with
    | jsNull => simpa [execLoop, funcIds] using ih s
    | jsUndefined => simpa [execLoop, funcIds] using ih s
    | func i =>
      by_cases hargN : argN = true
      · subst hargN
        exact ⟨i :: funcIds xs, by rw [execLoop_func_nullish]; rfl⟩
      · have hargN' : argN = false := by simpa using hargN
        subst hargN'
        by_cases hc : cancelSignal s = true
        · exact ⟨i :: funcIds xs, by rw [execLoop_func_cancel env i xs s hc]; rfl⟩
        · have hc' : cancelSignal s = false := by simpa using hc
          rcases henv : env i s with ⟨s', r⟩
          cases r with
          | ok =>
            rcases ih s' with ⟨t, ht⟩
            refine ⟨t, ?_⟩
            rw [execLoop_func_ok env i xs s s' hc' henv]
            simpa [funcIds] using ht
          | err c =>
            refine ⟨funcIds xs, ?_⟩
            rw [execLoop_func_err env i xs s s' c hc' henv]
            rfl

/-- When the loop ends in failure, the failing handler is the last invoked
one, and some handler did report that error. -/
theorem execLoop_failed (env : HandlerEnv) (argN : Bool) :
    ∀ (q : List Entry) (s : EventState) (c : Nat),
      (execLoop env argN q s).2.2 = ChainOutcome.failed c →
      ∃ pre i s', (execLoop env argN q s).1 = pre ++ [i] ∧
        (env i s').2 = HRes.err c := by
  intro q
  induction q with
  | nil => intro s c h; exact absurd h (by simp [execLoop])
  | cons x xs ih =>
    intro s c h
    cases x with
    | jsNull => simpa [execLoop] using ih s c (by simpa [execLoop] using h)
    | jsUndefined => simpa [execLoop] using ih s c (by simpa [execLoop] using h)
    | func i =>
      by_cases hargN : argN = true
      · subst hargN
        rw [execLoop_func_nullish] at h
        exact absurd h (by simp)
      · have hargN' : argN = false := by simpa using hargN
        subst hargN'
        by_cases hc : cancelSignal s = true
        · rw [execLoop_func_cancel env i xs s hc] at h
          exact absurd h (by simp)
        · have hc' : cancelSignal s = false := by simpa using hc
          rcases henv : env i s with ⟨s', r⟩
          cases r with
          | ok =>
            rw [execLoop_func_ok env i xs s s' hc' henv] at h ⊢
            rcases ih s' c h with ⟨pre, j, s'', hpre, herr⟩
            exact ⟨i :: pre, j, s'', by simp [hpre], herr⟩
          | err c' =>
            rw [execLoop_func_err env i xs s s' c' hc' henv] at h ⊢
            have hcc : c' = c := by simpa using h
            subst hcc
            exact ⟨[], i, s, by simp, by rw [henv]⟩

/-- With a nullish first argument no handler ever runs: either the queue
holds no function entry (completed) or the inspection raises. -/
theorem execLoop_nullish (env : HandlerEnv) :
    ∀ (q : List Entry) (s : EventState),
      (execLoop env true q s).1 = [] ∧
      ((execLoop env true q s).2.2 = ChainOutcome.completed ∨
        (execLoop env true q s).2.2 = ChainOutcome.inspectError) := by
  intro q
  induction q with
  | nil => intro s; exact ⟨rfl, Or.inl rfl⟩
  | cons x xs ih =>
    intro s
    cases x with
    | jsNull => simpa [execLoop] using ih s
    | jsUndefined => simpa [execLoop] using ih s
    | func i =>
      rw [execLoop_func_nullish]
      exact ⟨rfl, Or.inr rfl⟩

/-- On a non-nullish invocation the combined handler always returns
`undefined` synchronously. -/
theorem syncRetOf_false (q : List Entry) : syncRetOf q false = SyncRet.undefinedVal := by
  cases q with
  | nil => rfl
  | cons x xs => cases x <;> rfl

/-! ## Lookup lemmas for object-shaped results -/

theorem mem_of_lookup_eq_some (k : String) (v : Bool) :
    ∀ b : List (String × Bool), b.lookup k = some v → (k, v) ∈ b := by
  intro b
  induction b with
  | nil => intro h; simp [List.lookup] at h
  | cons kv rest ih =>
    intro h
    rcases kv with ⟨k', v'⟩
    by_cases hk : k = k'
    · subst hk
      have hv : v' = v := by simpa [List.lookup] using h
      subst hv
      exact List.mem_cons_self _ _
    · have h' : rest.lookup k = some v := by
        simpa [List.lookup, beq_eq_false_iff_ne.mpr hk] using h
      exact List.mem_cons_of_mem _ (ih h')

theorem lookup_eq_some_of_mem (k : String) (v : Bool) :
    ∀ b : List (String × Bool), (keys b).Nodup → (k, v) ∈ b →
      b.lookup k = some v := by
  intro b
  induction b with
  | nil => intro _ h; simp at h
  | cons kv rest ih =>
    intro hnd h
    rcases kv with ⟨k', v'⟩
    have hnd' : (keys rest).Nodup := (List.nodup_cons.mp hnd).2
    have hk' : k' ∉ keys rest := (List.nodup_cons.mp hnd).1
    rcases List.mem_cons.mp h with heq | hmem
    · rcases Prod.mk.injEq .. ▸ heq with ⟨rfl, rfl⟩
      simp [List.lookup]
    · by_cases hk : k = k'
      · subst hk
        exact absurd (List.mem_map_of_mem Prod.fst hmem) hk'
      · simpa [List.lookup, beq_eq_false_iff_ne.mpr hk] using ih hnd' hmem

theorem mem_keys_iff (k : String) (b : List (String × Bool)) :
    k ∈ keys b ↔ ∃ v, (k, v) ∈ b := by
  constructor
  · intro h
    rcases List.mem_map.mp h with ⟨⟨k', v⟩, hmem, hk⟩
    exact ⟨v, by simpa [← hk] using hmem⟩
  · rintro ⟨v, hv⟩
    exact List.mem_map_of_mem Prod.fst hv

/-- Core characterization of `isEqual` on two well-formed object results:
true exactly when the key sets coincide and every entry of `a` occurs in
`b`. -/
theorem isEqualNamed_iff (a b : List (String × Bool))
    (ha : (keys a).Nodup) (hb : (keys b).Nodup) :
    isEqualNamed a b = true ↔
      ((∀ k, k ∈ keys a ↔ k ∈ keys b) ∧ ∀ k v, (k, v) ∈ a → (k, v) ∈ b) := by
  have hlen_a : (keys a).length = a.length := List.length_map a Prod.fst
  have hlen_b : (keys b).length = b.length := List.length_map b Prod.fst
  constructor
  · intro h
    by_cases hlen : a.length = b.length
    · by_cases hz : a.length = 0
      · have haz : a = [] := List.length_eq_zero.mp hz
        have hbz : b = [] := List.length_eq_zero.mp (hlen ▸ hz)
        subst haz; subst hbz
        exact ⟨fun k => Iff.rfl, fun k v hv => hv⟩
      · have hall : ∀ kv ∈ a, (b.lookup kv.1 == some kv.2) = true := by
          have h' := h
          simp only [isEqualNamed] at h'
          rw [if_neg (fun hc => hc hlen), if_neg hz] at h'
          exact List.all_eq_true.mp h'
        have hsub : ∀ k v, (k, v) ∈ a → (k, v) ∈ b := by
          intro k v hv
          exact mem_of_lookup_eq_some k v b (by simpa using hall (k, v) hv)
        refine ⟨?_, hsub⟩
        have hks : (keys a).toFinset = (keys b).toFinset := by
          apply Finset.eq_of_subset_of_card_le
          · intro k hk
            rw [List.mem_toFinset] at hk ⊢
            rcases (mem_keys_iff k a).mp hk with ⟨v, hv⟩
            exact (mem_keys_iff k b).mpr ⟨v, hsub k v hv⟩
          · rw [List.toFinset_card_of_nodup ha, List.toFinset_card_of_nodup hb,
              hlen_a, hlen_b, hlen]
        intro k
        rw [← List.mem_toFinset, ← List.mem_toFinset (l := keys b), hks]
    · exact absurd h (by simp [isEqualNamed, hlen])
  · rintro ⟨hkeys, hsub⟩
    have hks : (keys a).toFinset = (keys b).toFinset := by
      ext k
      rw [List.mem_toFinset, List.mem_toFinset]
      exact hkeys k
    have hlen : a.length = b.length := by
      rw [← hlen_a, ← hlen_b, ← List.toFinset_card_of_nodup ha,
        ← List.toFinset_card_of_nodup hb, hks]
    by_cases hz : a.length = 0
    · simp [isEqualNamed, hlen, hz, hlen ▸ hz]
    · have hall : a.all (fun kv => b.lookup kv.1 == some kv.2) = true := by
        apply List.all_eq_true.mpr
        intro kv hv
        have hv' : (kv.1, kv.2) ∈ a := by simpa using hv
        have : b.lookup kv.1 = some kv.2 :=
          lookup_eq_some_of_mem kv.1 kv.2 b hb (hsub kv.1 kv.2 hv')
        simpa using this
      simp [isEqualNamed, hlen, hz, hall]

/-! ## Claim theorems for the event-chain combinator -/

/-- C4: on an invocation with a non-nullish first argument in which no
handler fails and no handler raises the cancellation signal, the handler
returned by `combineEvents` invokes exactly the distinct function
references of the argument list — each exactly once (the trace has no
duplicate), every distinct reference and only those (trace membership
coincides with membership in the argument list), in first-occurrence order
of the original list (the trace is the first-occurrence deduplication and a
sublist of the original order), with absent entries skipped — and the chain
completes; sequencing is strict by construction, each entry's completion
being awaited before the next entry is dequeued. -/
theorem combineEvents_unique_order (env : HandlerEnv) (entries : List Entry)
    (s0 : EventState)
    (h0 : cancelSignal s0 = false)
    (hok : ∀ i s, (env i s).2 = HRes.ok)
    (hnc : ∀ i s, cancelSignal s = false → cancelSignal (env i s).1 = false) :
    (combineEvents env false entries s0).trace = firstDedup (funcIds entries) ∧
    ((combineEvents env false entries s0).trace).Nodup ∧
    (∀ i, i ∈ (combineEvents env false entries s0).trace ↔ i ∈ funcIds entries) ∧
    ((combineEvents env false entries s0).trace).Sublist (funcIds entries) ∧
    (combineEvents env false entries s0).outcome = ChainOutcome.completed := by
  have hrun := execLoop_all_run env (fun s => cancelSignal s = false)
    (fun s hs => hs) hnc hok (firstDedup entries) s0 h0
  have htr : (combineEvents env false entries s0).trace =
      firstDedup (funcIds entries) := by
    rw [show (combineEvents env false entries s0).trace =
        (execLoop env false (firstDedup entries) s0).1 from rfl, hrun.1,
      funcIds_firstDedup]
  refine ⟨htr, ?_, ?_, ?_, hrun.2.1⟩
  · rw [htr]; exact nodup_firstDedup _
  · intro i; rw [htr]; exact mem_firstDedup _ i
  · rw [htr, ← funcIds_firstDedup]; exact funcIds_firstDedup_sublist entries

/-- Witness for C4: `combine(h0, h0, null, h1)` invokes `h0` once and `h1`
once, in that order, and completes. -/
theorem combineEvents_unique_order_witness :
    (combineEvents envOk false
        [Entry.func 0, Entry.func 0, Entry.jsNull, Entry.func 1] plainEvent).trace =
      [0, 1] ∧
    (combineEvents envOk false
        [Entry.func 0, Entry.func 0, Entry.jsNull, Entry.func 1] plainEvent).outcome =
      ChainOutcome.completed := by
  have h := combineEvents_unique_order envOk
    [Entry.func 0, Entry.func 0, Entry.jsNull, Entry.func 1] plainEvent
    (by decide) (fun i s => rfl) (fun i s hs => hs)
  exact ⟨by rw [h.1]; decide, h.2.2.2.2⟩

/-- C9: an invocation of the combined handler built from an empty or
all-absent argument list invokes nothing, raises nothing, leaves the event
untouched, returns `undefined`, and completes. -/
theorem combineEvents_all_absent (env : HandlerEnv) (argN : Bool)
    (entries : List Entry) (s0 : EventState)
    (h : ∀ e ∈ entries, e = Entry.jsNull ∨ e = Entry.jsUndefined) :
    combineEvents env argN entries s0 =
      { syncRet := SyncRet.undefinedVal, trace := [], finalState := s0,
        outcome := ChainOutcome.completed } := by
  have hq : ∀ e ∈ firstDedup entries, e = Entry.jsNull ∨ e = Entry.jsUndefined :=
    fun e he => h e ((mem_firstDedup entries e).mp he)
  have hrun := execLoop_skip_all env argN (firstDedup entries) s0 hq
  have hs : syncRetOf (firstDedup entries) argN = SyncRet.undefinedVal := by
    cases hfd : firstDedup entries with
    | nil => rfl
    | cons x xs =>
      cases x with
      | func i =>
        exfalso
        have hmem : Entry.func i ∈ firstDedup entries := by
          rw [hfd]; exact List.mem_cons_self _ _
        rcases hq _ hmem with h1 | h1 <;> exact absurd h1 (by simp)
      | jsNull => rfl
      | jsUndefined => rfl
  simp [combineEvents, hrun, hs]

/-- Witness for C9: a list of only `null`/`undefined` entries. -/
theorem combineEvents_all_absent_witness :
    combineEvents envOk false [Entry.jsNull, Entry.jsUndefined, Entry.jsNull] plainEvent =
      { syncRet := SyncRet.undefinedVal, trace := [], finalState := plainEvent,
        outcome := ChainOutcome.completed } :=
  combineEvents_all_absent envOk false _ plainEvent (by decide)

/-- C5: a truthy cancellation signal observed when an entry is about to be
invoked stops the whole remaining queue with no invocation and no error,
and in particular a first handler that synchronously sets the signal (as an
own property of its argument) guarantees the second handler never runs. -/
theorem combineEvents_cancel_stops :
    (∀ (env : HandlerEnv) (i : Nat) (rest : List Entry) (s : EventState),
        cancelSignal s = true →
        execLoop env false (Entry.func i :: rest) s = ([], s, ChainOutcome.cancelled)) ∧
    (∀ (env : HandlerEnv) (i j : Nat) (s0 : EventState),
        i ≠ j → cancelSignal s0 = false →
        (env i s0).2 = HRes.ok → cancelSignal (env i s0).1 = true →
        (combineEvents env false [Entry.func i, Entry.func j] s0).trace = [i] ∧
        (combineEvents env false [Entry.func i, Entry.func j] s0).outcome =
          ChainOutcome.cancelled) := by
  constructor
  · exact fun env i rest s hc => execLoop_func_cancel env i rest s hc
  · intro env i j s0 hij h0 hok hset
    rcases henv : env i s0 with ⟨s', r⟩
    have hr : r = HRes.ok := by rw [henv] at hok; exact hok
    subst hr
    have hs' : cancelSignal s' = true := by rw [henv] at hset; exact hset
    have hji : ¬ (j = i) := fun hji => hij hji.symm
    have hq : firstDedup [Entry.func i, Entry.func j] =
        [Entry.func i, Entry.func j] := by
      simp [firstDedup, firstDedupAux, hji]
    have e1 := execLoop_func_ok env i [Entry.func j] s0 s' h0 henv
    have e2 := execLoop_func_cancel env j ([] : List Entry) s' hs'
    constructor
    · show (execLoop env false (firstDedup [Entry.func i, Entry.func j]) s0).1 = [i]
      rw [hq, e1, e2]
    · show (execLoop env false (firstDedup [Entry.func i, Entry.func j]) s0).2.2 =
        ChainOutcome.cancelled
      rw [hq, e1, e2]

/-- Witness for C5: handler 0 sets `defaultPrevented`; handler 1 never
runs. -/
theorem combineEvents_cancel_stops_witness :
    (combineEvents envPrevent false [Entry.func 0, Entry.func 1] plainEvent).trace =
      [0] ∧
    (combineEvents envPrevent false [Entry.func 0, Entry.func 1] plainEvent).outcome =
      ChainOutcome.cancelled :=
  combineEvents_cancel_stops.2 envPrevent 0 1 plainEvent (by decide) (by decide)
    (by decide) (by decide)

/-- C1 counterexample: with an asynchronous handler 0 that rejects with
error 7 followed by handler 1, the chain does fail fast (only handler 0 is
on the trace and the internal chain ends `failed 7`), but the value the
combined handler delivers to its caller is `undefined`, not a promise-like
completion rejecting with that error: the rejection is unobservable through
the combinator's own completion. -/
theorem combineEvents_no_rejection_surfaced :
    (combineEvents envErr7 false [Entry.func 0, Entry.func 1] plainEvent).outcome =
        ChainOutcome.failed 7 ∧
    (combineEvents envErr7 false [Entry.func 0, Entry.func 1] plainEvent).trace = [0] ∧
    (combineEvents envErr7 false [Entry.func 0, Entry.func 1] plainEvent).syncRet =
        SyncRet.undefinedVal ∧
    (combineEvents envErr7 false [Entry.func 0, Entry.func 1] plainEvent).syncRet ≠
        SyncRet.promiseSettling (ChainOutcome.failed 7) := by decide

/-- C1 amended: if some entry throws synchronously or its pending result
rejects, the internal chain terminates `failed` with that error, the
failing handler is the last entry invoked, the trace is an initial segment
of the deduplicated queue (no entry after the failing one is ever invoked),
but the combined handler itself returns `undefined` to its caller — the
rejection is carried by an internal promise that is never exposed. -/
theorem combineEvents_failfast (env : HandlerEnv) (argN : Bool)
    (entries : List Entry) (s0 : EventState) (c : Nat)
    (h : (combineEvents env argN entries s0).outcome = ChainOutcome.failed c) :
    (combineEvents env argN entries s0).syncRet = SyncRet.undefinedVal ∧
    (∃ pre i s', (combineEvents env argN entries s0).trace = pre ++ [i] ∧
        (env i s').2 = HRes.err c) ∧
    (∃ t, (combineEvents env argN entries s0).trace ++ t =
        funcIds (firstDedup entries)) := by
  cases argN with
  | true =>
    exfalso
    have hout : (execLoop env true (firstDedup entries) s0).2.2 =
        ChainOutcome.failed c := h
    rcases (execLoop_nullish env (firstDedup entries) s0).2 with h1 | h1 <;>
      rw [h1] at hout <;> exact absurd hout (by simp)
  | false =>
    refine ⟨?_, ?_, ?_⟩
    · show syncRetOf (firstDedup entries) false = SyncRet.undefinedVal
      exact syncRetOf_false _
    · exact execLoop_failed env false (firstDedup entries) s0 c h
    · exact execLoop_trace_initial env false (firstDedup entries) s0

/-- Witness for the amended C1, on the rejecting-handler scenario. -/
theorem combineEvents_failfast_witness :
    (combineEvents envErr7 false [Entry.func 0, Entry.func 1] plainEvent).syncRet =
        SyncRet.undefinedVal ∧
    (∃ pre i s', (combineEvents envErr7 false [Entry.func 0, Entry.func 1]
        plainEvent).trace = pre ++ [i] ∧ (envErr7 i s').2 = HRes.err 7) ∧
    (∃ t, (combineEvents envErr7 false [Entry.func 0, Entry.func 1]
        plainEvent).trace ++ t =
        funcIds (firstDedup [Entry.func 0, Entry.func 1])) :=
  combineEvents_failfast envErr7 false _ plainEvent 7 (by decide)

/-- C3 counterexample: invoking the combined handler built from one present
handler with a `null`/`undefined` (or missing) first argument does not run
the handler at all: the cancellation inspection itself
(`Object.prototype.hasOwnProperty.call` on a nullish receiver) raises a
`TypeError`, contradicting the claim that such invocations are treated as
never cancelled with every entry running and no error raised. -/
theorem combineEvents_nullish_inspect_throws :
    (combineEvents envOk true [Entry.func 0] plainEvent).trace = [] ∧
    (combineEvents envOk true [Entry.func 0] plainEvent).outcome =
      ChainOutcome.inspectError ∧
    (combineEvents envOk true [Entry.func 0] plainEvent).syncRet =
      SyncRet.typeError ∧
    ChainOutcome.inspectError ≠ ChainOutcome.completed := by decide

/-- C3 amended: an invocation whose first argument is a non-nullish object
with no own cancellation property — kept property-free by every handler —
is treated as never cancelled: all unique present entries run, the chain
completes, and the inspection raises nothing; but a nullish (or absent)
first argument instead makes the inspection itself throw as soon as a
present entry is reached. -/
theorem combineEvents_no_own_flag_runs_all (env : HandlerEnv)
    (entries : List Entry) (s0 : EventState)
    (h0 : s0.ownDefaultPrevented = none)
    (hok : ∀ i s, (env i s).2 = HRes.ok)
    (hpres : ∀ i s, (env i s).1.ownDefaultPrevented = s.ownDefaultPrevented) :
    (combineEvents env false entries s0).trace = firstDedup (funcIds entries) ∧
    (combineEvents env false entries s0).outcome = ChainOutcome.completed := by
  have hrun := execLoop_all_run env (fun s => s.ownDefaultPrevented = none)
    (fun s hs => by simp [cancelSignal, hasOwnDP, hs])
    (fun i s hs => by show (env i s).1.ownDefaultPrevented = none; rw [hpres i s]; exact hs) hok (firstDedup entries) s0 h0
  refine ⟨?_, hrun.2.1⟩
  rw [show (combineEvents env false entries s0).trace =
      (execLoop env false (firstDedup entries) s0).1 from rfl, hrun.1,
    funcIds_firstDedup]

/-- Witness for the amended C3: a plain `\x7b\x7d` first argument runs both
handlers. -/
theorem combineEvents_no_own_flag_runs_all_witness :
    (combineEvents envOk false [Entry.func 0, Entry.func 1] plainEvent).trace =
      firstDedup (funcIds [Entry.func 0, Entry.func 1]) ∧
    (combineEvents envOk false [Entry.func 0, Entry.func 1] plainEvent).outcome =
      ChainOutcome.completed :=
  combineEvents_no_own_flag_runs_all envOk _ plainEvent rfl (fun i s => rfl)
    (fun i s => rfl)

/-- C10: the cancellation inspection consults only an own
`defaultPrevented` property: on an event whose plain property read sees a
truthy inherited flag but which carries no own property, the signal reads
false, every unique present handler still runs, and the chain completes
(provided handlers touch no own flag and succeed). -/
theorem combineEvents_ignores_inherited_flag (env : HandlerEnv)
    (entries : List Entry)
    (hok : ∀ i s, (env i s).2 = HRes.ok)
    (hpres : ∀ i s, (env i s).1.ownDefaultPrevented = s.ownDefaultPrevented) :
    readDP ⟨none, true⟩ = true ∧
    cancelSignal ⟨none, true⟩ = false ∧
    (combineEvents env false entries ⟨none, true⟩).trace =
      firstDedup (funcIds entries) ∧
    (combineEvents env false entries ⟨none, true⟩).outcome =
      ChainOutcome.completed := by
  have hrun := execLoop_all_run env (fun s => s.ownDefaultPrevented = none)
    (fun s hs => by simp [cancelSignal, hasOwnDP, hs])
    (fun i s hs => by show (env i s).1.ownDefaultPrevented = none; rw [hpres i s]; exact hs) hok (firstDedup entries) ⟨none, true⟩
    rfl
  refine ⟨rfl, rfl, ?_, hrun.2.1⟩
  rw [show (combineEvents env false entries ⟨none, true⟩).trace =
      (execLoop env false (firstDedup entries) ⟨none, true⟩).1 from rfl, hrun.1,
    funcIds_firstDedup]

/-- Witness for C10: both handlers run although the inherited flag is
truthy. -/
theorem combineEvents_ignores_inherited_flag_witness :
    readDP ⟨none, true⟩ = true ∧
    cancelSignal ⟨none, true⟩ = false ∧
    (combineEvents envOk false [Entry.func 3, Entry.func 4] ⟨none, true⟩).trace =
      firstDedup (funcIds [Entry.func 3, Entry.func 4]) ∧
    (combineEvents envOk false [Entry.func 3, Entry.func 4] ⟨none, true⟩).outcome =
      ChainOutcome.completed :=
  combineEvents_ignores_inherited_flag envOk _ (fun i s => rfl) (fun i s => rfl)

/-! ## Claim theorems for the condition evaluator -/

/-- C6: for every condition string, the single-condition evaluation is a
total boolean function (the try/catch lets no exception escape) that
returns `false` whenever the environment lacks the query capability or the
query throws, and returns the environment's match result when the
capability is present and the query succeeds. -/
theorem safeMatch_spec (env : DisplayEnv) (q : String) :
    ((env.hasWindow = false ∨ env.hasMatchMedia = false) →
      safeMatch env q = false) ∧
    (∀ c, env.matchMedia q = Except.error c → safeMatch env q = false) ∧
    (∀ b, env.hasWindow = true → env.hasMatchMedia = true →
      env.matchMedia q = Except.ok b → safeMatch env q = b) := by
  refine ⟨?_, ?_, ?_⟩
  · rintro (h | h) <;> simp [safeMatch, h]
  · intro c hc
    by_cases hw : env.hasWindow
    · by_cases hm : env.hasMatchMedia
      · simp [safeMatch, hw, hm, hc]
      · simp [safeMatch, Bool.eq_false_iff.mpr hm]
    · simp [safeMatch, Bool.eq_false_iff.mpr hw]
  · intro b hw hm hb
    simp [safeMatch, hw, hm, hb]

/-- Witness for C6: a headless environment yields `false` for any string;
a capable environment returns the match result; a throwing query yields
`false`. -/
theorem safeMatch_spec_witness :
    safeMatch envHeadless "(min-width: 768px)" = false ∧
    safeMatch envWide "wide" = true ∧
    safeMatch envWide "boom" = false :=
  ⟨(safeMatch_spec envHeadless "(min-width: 768px)").1 (Or.inl rfl),
    (safeMatch_spec envWide "wide").2.2 true rfl rfl (by simp [envWide]),
    (safeMatch_spec envWide "boom").2.1 0 (by simp [envWide])⟩

/-- C7: evaluating a named mapping evaluates every name independently by
the single-condition rule: the result is the entrywise image of the
mapping under `safeMatch`, its key list is exactly the mapping's key list
(no omissions, no additions, order preserved), and each name is assigned
the single-condition result of its own condition string. -/
theorem matching_named_spec (env : DisplayEnv) (m : List (String × String)) :
    matching env (MediaQueryInput.named m) =
      MatchRes.named (m.map (fun kv => (kv.1, safeMatch env kv.2))) ∧
    keys (m.map (fun kv => (kv.1, safeMatch env kv.2))) = m.map Prod.fst ∧
    (∀ k q, (k, q) ∈ m →
      (k, safeMatch env q) ∈ m.map (fun kv => (kv.1, safeMatch env kv.2))) := by
  refine ⟨rfl, ?_, ?_⟩
  · simp [keys, List.map_map, Function.comp]
  · intro k q hkq
    exact List.mem_map.mpr ⟨(k, q), hkq, rfl⟩

/-- Witness for C7, on the specification's concrete scenario: an
environment matching `"wide"` but not `"narrow"` maps
`\x7bmobile: "narrow", desktop: "wide"\x7d` to
`\x7bmobile: false, desktop: true\x7d`. -/
theorem matching_named_spec_witness :
    matching envWide
        (MediaQueryInput.named [("mobile", "narrow"), ("desktop", "wide")]) =
      MatchRes.named [("mobile", false), ("desktop", true)] ∧
    keys [("mobile", false), ("desktop", true)] = ["mobile", "desktop"] := by
  have h := matching_named_spec envWide [("mobile", "narrow"), ("desktop", "wide")]
  refine ⟨?_, by decide⟩
  rw [h.1]
  decide

/-- C8: `isEqual` is reflexive on every well-formed result (including the
empty mapping); on two well-formed object results it is true exactly when
the key sets agree (hence equal counts and membership, insertion order
irrelevant) and every name's boolean matches; it is false on an arity
mismatch; and on two single-boolean results it is boolean equality. -/
theorem isEqual_spec :
    (∀ r : MatchRes, WFRes r → isEqual r r = true) ∧
    (∀ a b : List (String × Bool), (keys a).Nodup → (keys b).Nodup →
      (isEqual (MatchRes.named a) (MatchRes.named b) = true ↔
        ((∀ k, k ∈ keys a ↔ k ∈ keys b) ∧ ∀ k v, (k, v) ∈ a → (k, v) ∈ b))) ∧
    (∀ a b : List (String × Bool), a.length ≠ b.length →
      isEqual (MatchRes.named a) (MatchRes.named b) = false) ∧
    (isEqual (MatchRes.named []) (MatchRes.named []) = true) ∧
    (∀ x y : Bool, isEqual (MatchRes.single x) (MatchRes.single y) = true ↔ x = y) := by
  refine ⟨?_, ?_, ?_, by decide, ?_⟩
  · intro r hr
    cases r with
    | single x => simp [isEqual]
    | named m =>
      have hm : (keys m).Nodup := hr
      exact (isEqualNamed_iff m m hm hm).mpr ⟨fun k => Iff.rfl, fun k v hv => hv⟩
  · intro a b ha hb
    exact isEqualNamed_iff a b ha hb
  · intro a b hlen
    simp [isEqual, isEqualNamed, hlen]
  · intro x y
    simp [isEqual]

/-- Witness for C8: reflexivity at a two-entry result, order-independence
and arity mismatch at the specification's examples. -/
theorem isEqual_spec_witness :
    isEqual (MatchRes.named [("a", true), ("b", false)])
      (MatchRes.named [("a", true), ("b", false)]) = true ∧
    isEqual (MatchRes.named [("a", true), ("b", false)])
      (MatchRes.named [("b", false), ("a", true)]) = true ∧
    isEqual (MatchRes.named [("a", true)])
      (MatchRes.named [("a", true), ("b", false)]) = false := by
  refine ⟨isEqual_spec.1 (MatchRes.named [("a", true), ("b", false)]) ?_, ?_,
    isEqual_spec.2.2.1 [("a", true)] [("a", true), ("b", false)] (by decide)⟩
  · show (keys [("a", true), ("b", false)]).Nodup
    decide
  · refine (isEqual_spec.2.1 [("a", true), ("b", false)] [("b", false), ("a", true)]
      ?_ ?_).mpr ⟨?_, ?_⟩
    · show (keys [("a", true), ("b", false)]).Nodup
      decide
    · show (keys [("b", false), ("a", true)]).Nodup
      decide
    · intro k
      simp only [keys, List.map_cons, List.map_nil, List.mem_cons,
        List.not_mem_nil, or_false]
      exact or_comm
    · intro k v h
      simp only [List.mem_cons, List.not_mem_nil, or_false, Prod.mk.injEq] at h ⊢
      tauto
/-- C2 (code bug): on any two successive renders, the rest parameter is a
freshly constructed array, so its identifier differs from the previous
render's; the dependency comparison on `[callbacks]` (resp. `[refs]`) then
fails regardless of the arrays' contents, both hooks rerun their factory,
and the returned handler is the freshly allocated one — never the cached
one.  Contents of the two arrays play no role: the memoization contract
"recompute only when some element differs" is violated on every re-render
with element-wise identical lists. -/
theorem useCombine_memo_recomputes_every_render (prevArr prevVal newArr freshVal : Nat)
    (hfresh : newArr ≠ prevArr) :
    (useCombineEvents (some ⟨[prevArr], prevVal⟩) newArr freshVal).valueId =
      freshVal ∧
    (useCombineRefs (some ⟨[prevArr], prevVal⟩) newArr freshVal).valueId =
      freshVal := by
  have hne : (prevArr == newArr) = false :=
    beq_eq_false_iff_ne.mpr (Ne.symm hfresh)
  constructor <;>
    simp [useCombineEvents, useCombineRefs, useMemoRender, areHookInputsEqual, hne]

/-- Witness for C2's divergence: the previous render cached handler 1 for
the callbacks array allocated as 100; the next render passes an array with
identical contents but fresh allocation 101, and both hooks return the new
handler 2, not the cached 1. -/
theorem useCombine_memo_recomputes_every_render_witness :
    (useCombineEvents (some ⟨[100], 1⟩) 101 2).valueId = 2 ∧
    (useCombineRefs (some ⟨[100], 1⟩) 101 2).valueId = 2 ∧ (2 : Nat) ≠ 1 :=
  ⟨(useCombine_memo_recomputes_every_render 100 1 101 2 (by decide)).1,
    (useCombine_memo_recomputes_every_render 100 1 101 2 (by decide)).2,
    by decide⟩

end MxHooks
